import Mathlib

/-!
Verification of the course-record extraction core of `app.py`
(VitCgpaAnalysis): raw-text normalization, row segmentation,
right-anchored row parsing, and the CSV codec.

Python strings are modelled as Lean `String` (working over `String.data :
List Char`); character classes (`\d`, `[A-Z]`, `\s`, `\w`) are modelled over
ASCII, which covers every character the grammar targets.  Python `int` is
modelled as `Int`; Python `float` is modelled as `Rat` together with exact
decimal rendering/parsing (finite Python floats round-trip exactly through
`str`/`float`, which the exact model mirrors; `inf`/`nan` and underscore
digit separators are outside the model's scope).  All definitions use
structural or fuel recursion so that they evaluate inside the kernel.
-/

/-- Python whitespace test used by `str.strip` / `str.split` (ASCII part). -/
def pyIsSpace (c : Char) : Bool :=
  c = ' ' || c = '\t' || c = '\n' || c = '\r' || c = '\x0b' || c = '\x0c'

/-- Word character for the regex `\b` boundary (`[A-Za-z0-9_]`). -/
def isWordChar (c : Char) : Bool :=
  c.isAlpha || c.isDigit || c = '_'

/-- `str.strip()` on a character list: drop whitespace from both ends. -/
def pyStripChars (cs : List Char) : List Char :=
  ((cs.dropWhile pyIsSpace).reverse.dropWhile pyIsSpace).reverse

/-- Python `str.strip()`. -/
def pyStrip (s : String) : String :=
  String.mk (pyStripChars s.data)

/-- Worker for `str.split()`: split on runs of whitespace, no empty tokens. -/
def pySplitGo : List Char → List Char → List String
  | [], buf => if buf = [] then [] else [String.mk buf]
  | c :: cs, buf =>
    if pyIsSpace c then
      if buf = [] then pySplitGo cs [] else String.mk buf :: pySplitGo cs []
    else
      pySplitGo cs (buf ++ [c])

/-- Python `str.split()` with no argument (`line.split()` in the parser). -/
def pySplit (s : String) : List String :=
  pySplitGo s.data []

/-- Python `" ".join(tokens)`. -/
def joinSp : List String → String
  | [] => ""
  | [t] => t
  | t :: ts => t ++ " " ++ joinSp ts

/-- Worker for `str.splitlines()` (handles `\n`, `\r`, `\r\n`). -/
def splitlinesGo : List Char → List Char → List String
  | [], buf => if buf = [] then [] else [String.mk buf]
  | '\r' :: '\n' :: rest, buf => String.mk buf :: splitlinesGo rest []
  | '\r' :: rest, buf => String.mk buf :: splitlinesGo rest []
  | '\n' :: rest, buf => String.mk buf :: splitlinesGo rest []
  | c :: rest, buf => splitlinesGo rest (buf ++ [c])

/-- Python `text.splitlines()`. -/
def pySplitlines (s : String) : List String :=
  splitlinesGo s.data []

/-- Does the pattern occur literally as a leading segment of the text? -/
def leadMatch : List Char → List Char → Bool
  | [], _ => true
  | _ :: _, [] => false
  | p :: ps, c :: cs => p = c && leadMatch ps cs

/-- Numeric value of a decimal digit character. -/
def digitVal (c : Char) : Nat :=
  c.toNat - 48

/-- Value of a most-significant-first digit string (used by `int`/`float`). -/
def digitsVal (cs : List Char) : Nat :=
  cs.foldl (fun a c => a * 10 + digitVal c) 0

/-- Decimal digits of `n`, least significant first (`fuel ≥ n` suffices). -/
def natToDigitsGo : Nat → Nat → List Char
  | 0, _ => []
  | _ + 1, 0 => []
  | fuel + 1, n => Nat.digitChar (n % 10) :: natToDigitsGo fuel (n / 10)

/-- Decimal digits of `n`, most significant first (empty for `0`). -/
def natDigitChars (n : Nat) : List Char :=
  (natToDigitsGo n n).reverse

/-- Python `str` on a non-negative integer. -/
def renderNat (n : Nat) : String :=
  if n = 0 then "0" else String.mk (natDigitChars n)

/-- Python `str` on an integer. -/
def renderInt : Int → String
  | Int.ofNat m => renderNat m
  | Int.negSucc m => "-" ++ renderNat (m + 1)

/-- A non-empty all-digit token and its value. -/
def pyIntDigits (ds : List Char) : Option Nat :=
  if ds ≠ [] && ds.all Char.isDigit then some (digitsVal ds) else none

/-- Model of Python `int(s)`: optional surrounding whitespace, an optional
sign, then decimal digits; anything else raises `ValueError` (`none`). -/
def pyIntOpt (s : String) : Option Int :=
  let cs := pyStripChars s.data
  if cs = [] then none
  else
    let c := cs.headD ' '
    if c = '-' then (pyIntDigits cs.tail).map (fun n => -(n : Int))
    else if c = '+' then (pyIntDigits cs.tail).map (fun n => (n : Int))
    else (pyIntDigits cs).map (fun n => (n : Int))

/-- Exponent suffix of a float literal: empty, or `e`/`E`, optional sign,
digits. -/
def parseExpPart : List Char → Option Int
  | [] => some 0
  | c :: cs =>
    if c = 'e' || c = 'E' then
      match cs with
      | '-' :: ds =>
        if ds ≠ [] && ds.all Char.isDigit then some (-(digitsVal ds : Int)) else none
      | '+' :: ds =>
        if ds ≠ [] && ds.all Char.isDigit then some (digitsVal ds : Int) else none
      | ds =>
        if ds ≠ [] && ds.all Char.isDigit then some (digitsVal ds : Int) else none
    else none

/-- The exact rational value `(n / d) * 10 ^ e` of a decimal literal,
built with integer arithmetic only. -/
def ratScale (n d : Nat) : Int → Rat
  | Int.ofNat k => mkRat (n * 10 ^ k) d
  | Int.negSucc k => mkRat n (d * 10 ^ (k + 1))

/-- Unsigned part of a float literal: digits, optional `.digits`, optional
exponent. -/
def pyFloatMag (cs : List Char) : Option Rat :=
  let ip := cs.takeWhile Char.isDigit
  let rest := cs.dropWhile Char.isDigit
  if rest ≠ [] ∧ rest.headD ' ' = '.' then
    let r2 := rest.tail
    let fp := r2.takeWhile Char.isDigit
    let rest2 := r2.dropWhile Char.isDigit
    if ip = [] ∧ fp = [] then none
    else
      (parseExpPart rest2).map
        (fun e => ratScale (digitsVal ip * 10 ^ fp.length + digitsVal fp) (10 ^ fp.length) e)
  else
    if ip = [] then none
    else (parseExpPart rest).map (fun e => ratScale (digitsVal ip) 1 e)

/-- Model of Python `float(s)` on finite decimal literals: optional
surrounding whitespace and sign, digits with optional fraction and exponent.
The value is kept exact as a rational. -/
def pyFloatOpt (s : String) : Option Rat :=
  let cs := pyStripChars s.data
  if cs = [] then none
  else
    let c := cs.headD ' '
    if c = '-' then (pyFloatMag cs.tail).map (fun q => -q)
    else if c = '+' then pyFloatMag cs.tail
    else pyFloatMag cs

/-- Multiplicity of `p` in `n` (fuel-bounded). -/
def padicGo (p : Nat) : Nat → Nat → Nat
  | 0, _ => 0
  | fuel + 1, n => if 2 ≤ p && n ≠ 0 && n % p = 0 then padicGo p fuel (n / p) + 1 else 0

/-- Number of decimal fraction digits needed for denominator `d`
(`max` of the multiplicities of 2 and 5). -/
def decK (d : Nat) : Nat :=
  max (padicGo 2 d d) (padicGo 5 d d)

/-- `q` has an exact finite decimal representation with `max (decK q.den) 1`
fraction digits (true exactly when `q.den` factors into 2s and 5s). -/
def goodCredits (q : Rat) : Bool :=
  10 ^ (max (decK q.den) 1) % q.den = 0

/-- Left-pad a digit string with `'0'` to the given length. -/
def padZeros (len : Nat) (ds : List Char) : List Char :=
  List.replicate (len - ds.length) '0' ++ ds

/-- Modelled from the spec: the HTML template that renders a record's
`credits` into the editable form is not under `src/`; per §3 credits is a
decimal number and Python `str` on a float prints its shortest exact decimal
(always with at least one fraction digit).  `renderCredits` prints that exact
decimal for decimally-representable rationals. -/
def renderCredits (q : Rat) : String :=
  let k := max (decK q.den) 1
  if 10 ^ k % q.den = 0 then
    let m := q.num.natAbs * (10 ^ k / q.den)
    let padded := padZeros (k + 1) (natDigitChars m)
    let ipart := padded.take (padded.length - k)
    let fpart := padded.drop (padded.length - k)
    String.mk ((if q.num < 0 then ['-'] else []) ++ ipart ++ '.' :: fpart)
  else "nan"

/-- The `CourseRecord` dataclass of `app.py` (lines 13-24).  `credits` is a
Python float, modelled exactly as a rational. -/
structure CourseRecord where
  sl_no : Int
  course_code : String
  course_title : String
  course_type : String
  credits : Rat
  grade : String
  exam_month : String
  result_declared_on : String
  course_option : String
  course_distribution : String
deriving DecidableEq

/-- Match `[A-Z]{3}[0-9]{4}` at the head of the text; on success return the
seven matched characters and the remaining text. -/
def codeMatch : List Char → Option (List Char × List Char)
  | u1 :: u2 :: u3 :: d1 :: d2 :: d3 :: d4 :: rest =>
    if u1.isUpper && u2.isUpper && u3.isUpper &&
       d1.isDigit && d2.isDigit && d3.isDigit && d4.isDigit then
      some ([u1, u2, u3, d1, d2, d3, d4], rest)
    else none
  | _ => none

/-- `re.sub(r"(\b\d{1,2})([A-Z]{3}\d{4})", r"\1 \2", text)` (app.py line 40):
left-to-right non-overlapping scan; at a word boundary before a digit the
engine greedily tries two digits then one digit followed by the course-code
pattern, inserting a space between the groups.  `prevW` tracks whether the
previous consumed character is a word character (for `\b`). -/
def sub1Go : Nat → Bool → List Char → List Char
  | 0, _, cs => cs
  | _ + 1, _, [] => []
  | fuel + 1, prevW, c :: cs =>
    if !prevW && c.isDigit then
      match cs with
      | c2 :: cs2 =>
        if c2.isDigit then
          match codeMatch cs2 with
          | some (code, rest) => c :: c2 :: ' ' :: (code ++ sub1Go fuel true rest)
          | none =>
            match codeMatch cs with
            | some (code, rest) => c :: ' ' :: (code ++ sub1Go fuel true rest)
            | none => c :: sub1Go fuel true cs
        else
          match codeMatch cs with
          | some (code, rest) => c :: ' ' :: (code ++ sub1Go fuel true rest)
          | none => c :: sub1Go fuel true cs
      | [] => [c]
    else
      c :: sub1Go fuel (isWordChar c) cs

/-- `re.sub(r"([A-Z]{3}\d{4})([A-Za-z])", r"\1 \2", text)` (app.py line 43):
left-to-right non-overlapping scan inserting a space between a course-code
token and an immediately following letter. -/
def sub2Go : Nat → List Char → List Char
  | 0, cs => cs
  | _ + 1, [] => []
  | fuel + 1, c :: cs =>
    match codeMatch (c :: cs) with
    | some (code, rest) =>
      match rest with
      | l :: rest2 =>
        if l.isAlpha then code ++ ' ' :: l :: sub2Go fuel rest2
        else c :: sub2Go fuel cs
      | [] => c :: sub2Go fuel cs
    | none => c :: sub2Go fuel cs

/-- `normalize_raw_text` (app.py lines 38-45): the two glue-repair
substitutions applied in order. -/
def normalize_raw_text (s : String) : String :=
  let t1 := sub1Go s.data.length false s.data
  String.mk (sub2Go t1.length t1)

/-- The footer marker of `clean_line` (app.py line 50). -/
def markerChars : List Char :=
  "UNOFFICIALProvisional Grade History".data

/-- `re.sub(r"UNOFFICIALProvisional Grade History.*", "", line)`: drop
everything from the first occurrence of the footer marker (the `.*` consumes
the rest of the line, which contains no newline). -/
def dropFooter : List Char → List Char
  | [] => []
  | c :: cs => if leadMatch markerChars (c :: cs) then [] else c :: dropFooter cs

/-- `clean_line` (app.py lines 48-51): strip the footer, then whitespace. -/
def clean_line (s : String) : String :=
  pyStrip (String.mk (dropFooter s.data))

/-- `re.match(r"^\d+\s+[A-Z]{3}\d{4}\b", line)` (app.py line 110): one or
more digits, whitespace, a course-code token, ending at a word boundary, all
anchored at the start of the line. -/
def anchorMatch (s : String) : Bool :=
  let cs := s.data
  let ds := cs.takeWhile Char.isDigit
  let rest1 := cs.dropWhile Char.isDigit
  if ds = [] then false
  else
    let sp := rest1.takeWhile pyIsSpace
    let rest2 := rest1.dropWhile pyIsSpace
    if sp = [] then false
    else
      match codeMatch rest2 with
      | some (_, rest3) =>
        match rest3 with
        | [] => true
        | c :: _ => !isWordChar c
      | none => false

/-- `parse_course_line` (app.py lines 54-93): split on whitespace, require
at least 10 tokens, `sl_no` from the first token via `int`, the seven
trailing fields counted from the right, `credits` via `float`, and the title
as the space-joined middle tokens; any parse failure yields `none`. -/
def parse_course_line (line : String) : Option CourseRecord :=
  let tokens := pySplit line
  if tokens.length < 10 then none
  else
    match pyIntOpt (tokens.getD 0 "") with
    | none => none
    | some sl =>
      match pyFloatOpt (tokens.getD (tokens.length - 6) "") with
      | none => none
      | some cr =>
        some {
          sl_no := sl
          course_code := tokens.getD 1 ""
          course_title := joinSp ((tokens.drop 2).take (tokens.length - 9))
          course_type := tokens.getD (tokens.length - 7) ""
          credits := cr
          grade := tokens.getD (tokens.length - 5) ""
          exam_month := tokens.getD (tokens.length - 4) ""
          result_declared_on := tokens.getD (tokens.length - 3) ""
          course_option := tokens.getD (tokens.length - 2) ""
          course_distribution := tokens.getD (tokens.length - 1) ""
        }

/-- Loop state of `parse_grade_history` (app.py lines 101-102): the records
collected so far and the accumulator `current_line`. -/
structure SegState where
  records : List CourseRecord
  current : String
deriving DecidableEq

/-- One iteration of the segmenter loop (app.py lines 104-118): clean the
line, skip it if empty, start a new accumulator on an anchor match (flushing
the previous accumulator through the row parser), otherwise append the line
to a non-empty accumulator and drop it if there is none. -/
def processLine (st : SegState) (raw : String) : SegState :=
  let line := clean_line raw
  if line = "" then st
  else if anchorMatch line then
    if st.current ≠ "" then
      match parse_course_line st.current with
      | some r => ⟨st.records ++ [r], line⟩
      | none => ⟨st.records, line⟩
    else ⟨st.records, line⟩
  else if st.current ≠ "" then ⟨st.records, st.current ++ " " ++ line⟩
  else st

/-- Final flush after the loop (app.py lines 120-123). -/
def finishSeg (st : SegState) : List CourseRecord :=
  if st.current ≠ "" then st.records ++ (parse_course_line st.current).toList
  else st.records

/-- `parse_grade_history` from the text blob onward (app.py lines 98-125);
the PDF-to-text decoding itself is an external collaborator producing the
input string. -/
def parse_grade_history_text (text : String) : List CourseRecord :=
  finishSeg ((pySplitlines (normalize_raw_text text)).foldl processLine ⟨[], ""⟩)

/-- Python exceptions that the CSV-decoding path can raise. -/
inductive PyErr where
  | valueError
  | attributeError
deriving DecidableEq

instance {ε α : Type} [DecidableEq ε] [DecidableEq α] : DecidableEq (Except ε α) := fun x y =>
  match x, y with
  | Except.ok a, Except.ok b =>
    if h : a = b then isTrue (by rw [h])
    else isFalse (fun he => h (Except.ok.inj he))
  | Except.error a, Except.error b =>
    if h : a = b then isTrue (by rw [h])
    else isFalse (fun he => h (Except.error.inj he))
  | Except.ok _, Except.error _ => isFalse (fun he => Except.noConfusion he)
  | Except.error _, Except.ok _ => isFalse (fun he => Except.noConfusion he)

/-- `csv.writer` QUOTE_MINIMAL: a field is quoted iff it contains the
delimiter, the quote character, or a character of the `\r\n` line
terminator. -/
def needsQuote (cs : List Char) : Bool :=
  cs.any (fun c => c = ',' || c = '"' || c = '\r' || c = '\n')

/-- Double each quote character (CSV quote escaping). -/
def escQ : List Char → List Char
  | [] => []
  | c :: cs => if c = '"' then '"' :: '"' :: escQ cs else c :: escQ cs

/-- Encode one CSV field per the default `csv.writer` dialect. -/
def encField (cs : List Char) : List Char :=
  if needsQuote cs then '"' :: (escQ cs ++ ['"']) else cs

/-- Join encoded fields with the `,` delimiter. -/
def csvJoin : List (List Char) → List Char
  | [] => []
  | [f] => f
  | f :: fs => f ++ ',' :: csvJoin fs

/-- The characters of one encoded CSV row, without the line terminator. -/
def encRowBody (fs : List String) : List Char :=
  csvJoin (fs.map (fun f => encField f.data))

/-- One `csv.writer` row with its `\r\n` terminator. -/
def encRowCRLF (fs : List String) : List Char :=
  encRowBody fs ++ ['\r', '\n']

/-- The same row with a bare `\n` terminator (what the reader sees after
universal-newline translation). -/
def encRowLF (fs : List String) : List Char :=
  encRowBody fs ++ ['\n']

/-- The header written by `/download` and expected by `parse_csv`
(app.py lines 225-228). -/
def csvHeader : List String :=
  ["Sl.No", "Course Code", "Course Title", "Course Type", "Credits",
   "Grade", "Exam Month", "Result Declared On", "Course Option", "Course Distribution"]

/-- The ten field values of a record as the strings submitted to
`/download`, in header order; `/download` strips each submitted value
(app.py line 222).  `renderInt`/`renderCredits` model the `str` rendering
performed by the HTML template (not under `src/`). -/
def renderRecord (r : CourseRecord) : List String :=
  [pyStrip (renderInt r.sl_no), pyStrip r.course_code, pyStrip r.course_title,
   pyStrip r.course_type, pyStrip (renderCredits r.credits), pyStrip r.grade,
   pyStrip r.exam_month, pyStrip r.result_declared_on, pyStrip r.course_option,
   pyStrip r.course_distribution]

/-- The data rows written by `/download` (app.py lines 238-245): rows whose
every value is the empty string are skipped. -/
def encodeRows : List (List String) → List Char
  | [] => []
  | row :: rest =>
    (if row.all (fun f => f = "") then [] else encRowCRLF row) ++ encodeRows rest

/-- The CSV text produced by `/download` for an ordered record sequence
(app.py lines 209-247): the header row then one row per record. -/
def download_csv_encode (rs : List CourseRecord) : String :=
  String.mk (encRowCRLF csvHeader ++ encodeRows (rs.map renderRecord))

/-- Universal-newline translation performed by `io.TextIOWrapper` before the
`csv` reader sees the text: `\r\n` and lone `\r` both become `\n`. -/
def translateNL : List Char → List Char
  | [] => []
  | [c] => if c = '\r' then ['\n'] else [c]
  | c :: c2 :: cs =>
    if c = '\r' then
      if c2 = '\n' then '\n' :: translateNL cs
      else '\n' :: translateNL (c2 :: cs)
    else c :: translateNL (c2 :: cs)

/-- States of the `csv.reader` character machine (default dialect):
at the start of a row, at the start of a field after a delimiter, inside an
unquoted field, inside a quoted field, and just after a quote character
inside a quoted field. -/
inductive CsvMode where
  | startRow
  | startField
  | inField
  | inQuoted
  | quoteQuoted

/-- `csv.reader` over newline-translated text, one character at a time.
`buf` is the current field, `row` the fields completed so far in the current
row.  A bare `\n` at the start of a row yields the empty row `[]` (a blank
line); a quote is literal inside an unquoted field; a doubled quote inside a
quoted field is an escaped quote; characters after a closing quote are
appended to the field (non-strict mode); at end of input a pending row is
yielded without its terminator. -/
def csvScan : List Char → CsvMode → List Char → List String → List (List String)
  | [], CsvMode.startRow, _, _ => []
  | [], _, buf, row => [row ++ [String.mk buf]]
  | c :: cs, CsvMode.startRow, _, _ =>
    if c = '\n' then [] :: csvScan cs CsvMode.startRow [] []
    else if c = ',' then csvScan cs CsvMode.startField [] [""]
    else if c = '"' then csvScan cs CsvMode.inQuoted [] []
    else csvScan cs CsvMode.inField [c] []
  | c :: cs, CsvMode.startField, _, row =>
    if c = '\n' then (row ++ [""]) :: csvScan cs CsvMode.startRow [] []
    else if c = ',' then csvScan cs CsvMode.startField [] (row ++ [""])
    else if c = '"' then csvScan cs CsvMode.inQuoted [] row
    else csvScan cs CsvMode.inField [c] row
  | c :: cs, CsvMode.inField, buf, row =>
    if c = '\n' then (row ++ [String.mk buf]) :: csvScan cs CsvMode.startRow [] []
    else if c = ',' then csvScan cs CsvMode.startField [] (row ++ [String.mk buf])
    else csvScan cs CsvMode.inField (buf ++ [c]) row
  | c :: cs, CsvMode.inQuoted, buf, row =>
    if c = '"' then csvScan cs CsvMode.quoteQuoted buf row
    else csvScan cs CsvMode.inQuoted (buf ++ [c]) row
  | c :: cs, CsvMode.quoteQuoted, buf, row =>
    if c = '"' then csvScan cs CsvMode.inQuoted (buf ++ ['"']) row
    else if c = ',' then csvScan cs CsvMode.startField [] (row ++ [String.mk buf])
    else if c = '\n' then (row ++ [String.mk buf]) :: csvScan cs CsvMode.startRow [] []
    else csvScan cs CsvMode.inField (buf ++ [c]) row

/-- The cell of a row under a header name, as `csv.DictReader` builds its
dict from `zip(fieldnames, row)`: a short row leaves the name unbound
(`restval None`), duplicate names keep the rightmost pair. -/
def getCell (hdr row : List String) (name : String) : Option String :=
  ((hdr.zip row).reverse.find? (fun p => p.fst = name)).map (fun p => p.snd)

/-- Deduplicate the header names, keeping first occurrences (dict keys). -/
def dedupGo : List String → List String → List String
  | [], _ => []
  | k :: ks, seen =>
    if seen.contains k then dedupGo ks seen else k :: dedupGo ks (k :: seen)

/-- The iteration order of the row dict's string keys. -/
def dedupKeys (hdr : List String) : List String :=
  dedupGo hdr []

/-- `any((row.get(col) or "").strip() for col in row.keys())` (app.py
line 144), evaluated lazily over the named columns and then the `restkey`:
when the row has more cells than the header, the `restkey` value is the
non-empty *list* of extras, and calling `.strip()` on it raises
`AttributeError`. -/
def anyNonblankGo (hdr row : List String) : List String → Except PyErr Bool
  | [] =>
    if hdr.length < row.length then Except.error PyErr.attributeError
    else Except.ok false
  | k :: ks =>
    if pyStrip ((getCell hdr row k).getD "") ≠ "" then Except.ok true
    else anyNonblankGo hdr row ks

/-- The all-blank test of app.py line 144 (may raise, see `anyNonblankGo`). -/
def anyNonblankE (hdr row : List String) : Except PyErr Bool :=
  anyNonblankGo hdr row (dedupKeys hdr)

/-- One iteration of the `parse_csv` row loop (app.py lines 142-181): skip a
fully blank row; inside the per-row `try`, skip on a blank or unparsable
`Sl.No`, default blank credits to `0.0`, and take the other fields as
stripped strings; a `ValueError` from `int`/`float` is caught and skips the
row.  The blank-row test runs *before* the `try`, so its `AttributeError`
propagates. -/
def parseCsvRowE (hdr row : List String) : Except PyErr (Option CourseRecord) :=
  match anyNonblankE hdr row with
  | Except.error e => Except.error e
  | Except.ok false => Except.ok none
  | Except.ok true =>
    let cell := fun name => pyStrip ((getCell hdr row name).getD "")
    let sl_str := cell "Sl.No"
    if sl_str = "" then Except.ok none
    else
      match pyIntOpt sl_str with
      | none => Except.ok none
      | some sl =>
        let cr_str := cell "Credits"
        match (if cr_str = "" then some 0 else pyFloatOpt cr_str) with
        | none => Except.ok none
        | some cr =>
          Except.ok (some {
            sl_no := sl
            course_code := cell "Course Code"
            course_title := cell "Course Title"
            course_type := cell "Course Type"
            credits := cr
            grade := cell "Grade"
            exam_month := cell "Exam Month"
            result_declared_on := cell "Result Declared On"
            course_option := cell "Course Option"
            course_distribution := cell "Course Distribution"
          })

/-- The `for row in reader` loop of `parse_csv`: `DictReader` skips empty
rows; accepted records accumulate in order; an uncaught exception aborts the
whole decode. -/
def decodeRows (hdr : List String) : List (List String) → Except PyErr (List CourseRecord)
  | [] => Except.ok []
  | row :: rest =>
    if row = [] then decodeRows hdr rest
    else
      match parseCsvRowE hdr row with
      | Except.error e => Except.error e
      | Except.ok none => decodeRows hdr rest
      | Except.ok (some r) =>
        match decodeRows hdr rest with
        | Except.error e => Except.error e
        | Except.ok rs => Except.ok (r :: rs)

/-- `parse_csv` (app.py lines 130-183) over the uploaded file's text:
universal-newline translation, CSV row scanning, the first row as the
`DictReader` header, then the per-row loop.  The result is `Except` because
the blank-row test can raise `AttributeError` (see `anyNonblankGo`). -/
def parse_csvE (s : String) : Except PyErr (List CourseRecord) :=
  match csvScan (translateNL s.data) CsvMode.startRow [] [] with
  | [] => Except.ok []
  | hdr :: data => decodeRows hdr data

/-- A string that `str.strip` leaves unchanged and that contains no carriage
return. -/
def trimmedNoCR (s : String) : Bool :=
  pyStrip s = s && '\r' ∉ s.data

/-- Type-valid record whose string fields are already trimmed and
carriage-return free and whose credits value is decimally representable. -/
def goodRecord (r : CourseRecord) : Bool :=
  trimmedNoCR r.course_code && trimmedNoCR r.course_title &&
  trimmedNoCR r.course_type && trimmedNoCR r.grade &&
  trimmedNoCR r.exam_month && trimmedNoCR r.result_declared_on &&
  trimmedNoCR r.course_option && trimmedNoCR r.course_distribution &&
  goodCredits r.credits

/-!
## Theorems
-/

/-- Claim C2: the normalizer is claimed idempotent for every string.  It is
not: on `"ABC1234XYZ1234a"` the second substitution's first pass matches
`ABC1234X`, consuming the letter `X`, and the non-overlapping scan resumes
after it, missing the course-code pattern `XYZ1234` that `X` begins; a
second application of the normalizer inserts a further space, so
`normalize(normalize(s)) ≠ normalize(s)`. -/
theorem normalize_not_idempotent :
    normalize_raw_text (normalize_raw_text "ABC1234XYZ1234a") ≠
      normalize_raw_text "ABC1234XYZ1234a" := by
  decide

/-- Claim C3: normalization, segmentation and row parsing of the single raw
line `"6HUM1021Engineering Mechanics L 3.0 B MAY2023 JUN2023 FULL DIST2"`
yield exactly the one record stated in the spec. -/
theorem end_to_end_single_line :
    parse_grade_history_text
        "6HUM1021Engineering Mechanics L 3.0 B MAY2023 JUN2023 FULL DIST2" =
      [⟨6, "HUM1021", "Engineering Mechanics", "L", 3, "B", "MAY2023",
        "JUN2023", "FULL", "DIST2"⟩] := by
  decide

/-- Claim C6: the 12-token row splits into the stated tokens, and the row
parser right-anchors the seven trailing fields, leaving exactly
`"Intro to Systems"` as the title, credits `4.0` and `sl_no` 3. -/
theorem parser_right_anchoring :
    pySplit "3 CSE1001 Intro to Systems REG 4.0 A MAY2023 JUN2023 FULL DIST1" =
      ["3", "CSE1001", "Intro", "to", "Systems", "REG", "4.0", "A",
       "MAY2023", "JUN2023", "FULL", "DIST1"] ∧
    parse_course_line "3 CSE1001 Intro to Systems REG 4.0 A MAY2023 JUN2023 FULL DIST1" =
      some ⟨3, "CSE1001", "Intro to Systems", "REG", 4, "A", "MAY2023",
        "JUN2023", "FULL", "DIST1"⟩ := by
  constructor
  · decide
  · decide

/-- Claim C9: CSV decoding is not total.  On a CSV whose data row has more
cells than the header while every named cell is blank, the all-blank test of
app.py line 144 reaches the `DictReader` restkey, whose value is the
non-empty list of extra cells, and calls `.strip()` on it: an
`AttributeError` escapes `parse_csv` to its caller. -/
theorem parse_csv_not_total :
    parse_csvE
        "Sl.No,Course Code,Course Title,Course Type,Credits,Grade,Exam Month,Result Declared On,Course Option,Course Distribution\r\n,,,,,,,,,,x\r\n" =
      Except.error PyErr.attributeError := by
  decide

/-- Claim C8: a row raising a parse error is not always skipped
individually.  Here the second data row is well-formed, but the first row
(ten blank named cells plus an eleventh cell `extra`) raises an
`AttributeError` in the all-blank test, which sits outside the per-row
`try`: the whole decode aborts and the following valid row is lost. -/
theorem parse_csv_row_error_aborts :
    parse_csvE
        "Sl.No,Course Code,Course Title,Course Type,Credits,Grade,Exam Month,Result Declared On,Course Option,Course Distribution\r\n,,,,,,,,,,extra\r\n2,CSE1001,Data Structures,L,4.0,A,MAY2023,JUN2023,FULL,DIST1\r\n" =
      Except.error PyErr.attributeError := by
  decide

theorem mk_ne_empty {buf : List Char} (h : buf ≠ []) : String.mk buf ≠ "" := by
  intro he
  exact h (by simpa using congrArg String.data he)

theorem pySplitGo_ne_empty :
    ∀ (cs buf : List Char) (t : String), t ∈ pySplitGo cs buf → t ≠ "" := by
  intro cs
  induction cs with
  | nil =>
    intro buf t ht
    by_cases hb : buf = []
    · simp [pySplitGo, hb] at ht
    · simp only [pySplitGo, if_neg hb, List.mem_singleton] at ht
      exact ht ▸ mk_ne_empty hb
  | cons c cs ih =>
    intro buf t ht
    by_cases hsp : pyIsSpace c
    · by_cases hb : buf = []
      · simp only [pySplitGo, if_pos hsp, if_pos hb] at ht
        exact ih [] t ht
      · simp only [pySplitGo, if_pos hsp, if_neg hb, List.mem_cons] at ht
        rcases ht with ht | ht
        · exact ht ▸ mk_ne_empty hb
        · exact ih [] t ht
    · simp only [pySplitGo, if_neg hsp] at ht
      exact ih (buf ++ [c]) t ht

theorem pySplit_ne_empty (s : String) : ∀ t ∈ pySplit s, t ≠ "" :=
  fun t ht => pySplitGo_ne_empty s.data [] t ht

theorem string_ne_empty_of_append_left {a b : String} (h : a ≠ "") :
    a ++ b ≠ "" := by
  intro he
  apply h
  have hd : a.data ++ b.data = [] := by
    simpa using congrArg String.data he
  have : a.data = [] := (List.append_eq_nil.mp hd).1
  exact congrArg String.mk this

theorem joinSp_ne_empty :
    ∀ (ts : List String), ts ≠ [] → (∀ t ∈ ts, t ≠ "") → joinSp ts ≠ "" := by
  intro ts
  match ts with
  | [] => intro h; exact absurd rfl h
  | [t] =>
    intro _ hall
    simpa [joinSp] using hall t (by simp)
  | t :: t2 :: ts =>
    intro _ hall
    show t ++ " " ++ joinSp (t2 :: ts) ≠ ""
    exact string_ne_empty_of_append_left
      (string_ne_empty_of_append_left (hall t (by simp)))

/-- Claim C4 (as stated) is false: a logical row of exactly 9 tokens does
not produce a record with an empty title — the parser's minimum-token check
rejects it outright. -/
theorem nine_token_row_counterexample :
    (pySplit "1 ABC1234 L 4.0 A M J F D").length = 9 ∧
    parse_course_line "1 ABC1234 L 4.0 A M J F D" = none := by
  constructor
  · decide
  · decide

/-- Claim C4 (amended): a logical row that splits into exactly 9
whitespace-separated tokens yields no record at all, because
`parse_course_line` requires at least 10 tokens. -/
theorem nine_token_rows_rejected (line : String)
    (h : (pySplit line).length = 9) : parse_course_line line = none := by
  simp only [parse_course_line]
  rw [h]
  rw [if_pos (by omega)]

theorem nine_token_rows_rejected_witness :
    parse_course_line "2 XYZ9999 P 1.0 B N K G E" = none :=
  nine_token_rows_rejected "2 XYZ9999 P 1.0 B N K G E" (by decide)

/-- Claim C7: if a logical row splits into fewer than 10 tokens, or its
first token does not parse as an integer, or its credits token (sixth from
the right) does not parse as a number, the row parser returns no record at
all. -/
theorem malformed_row_rejected (line : String)
    (h : (pySplit line).length < 10 ∨
         pyIntOpt ((pySplit line).getD 0 "") = none ∨
         pyFloatOpt ((pySplit line).getD ((pySplit line).length - 6) "") = none) :
    parse_course_line line = none := by
  simp only [parse_course_line]
  by_cases hl : (pySplit line).length < 10
  · rw [if_pos hl]
  · rw [if_neg hl]
    rcases h with h | h | h
    · exact absurd h hl
    · rw [h]
    · cases hi : pyIntOpt ((pySplit line).getD 0 "") with
      | none => rfl
      | some sl => rw [h]

theorem malformed_row_rejected_witness :
    parse_course_line "x ABC1234 a b c d e f g h" = none :=
  malformed_row_rejected "x ABC1234 a b c d e f g h" (Or.inr (Or.inl (by decide)))

/-- Claim C10: every record the row parser accepts has a non-empty course
title: at least 10 tokens are required, the title spans the at-least-one
tokens between index 2 and the seventh-from-last, and `str.split` never
yields empty tokens. -/
theorem accepted_record_title_nonempty (line : String) (r : CourseRecord)
    (h : parse_course_line line = some r) : r.course_title ≠ "" := by
  simp only [parse_course_line] at h
  by_cases hl : (pySplit line).length < 10
  · rw [if_pos hl] at h
    exact absurd h (by simp)
  · rw [if_neg hl] at h
    cases hi : pyIntOpt ((pySplit line).getD 0 "") with
    | none => rw [hi] at h; exact absurd h (by simp)
    | some sl =>
      rw [hi] at h
      cases hf : pyFloatOpt ((pySplit line).getD ((pySplit line).length - 6) "") with
      | none => rw [hf] at h; exact absurd h (by simp)
      | some cr =>
        rw [hf] at h
        have hr := (Option.some.inj h).symm
        have htoks : ((pySplit line).drop 2).take ((pySplit line).length - 9) ≠ [] := by
          have hlen : (((pySplit line).drop 2).take ((pySplit line).length - 9)).length =
              min ((pySplit line).length - 9) ((pySplit line).length - 2) := by
            simp [List.length_take, List.length_drop]
          intro hnil
          rw [hnil] at hlen
          simp only [List.length_nil] at hlen
          omega
        have hall : ∀ t ∈ ((pySplit line).drop 2).take ((pySplit line).length - 9), t ≠ "" :=
          fun t ht =>
            pySplit_ne_empty line t (List.mem_of_mem_drop (List.mem_of_mem_take ht))
        have : r.course_title =
            joinSp (((pySplit line).drop 2).take ((pySplit line).length - 9)) := by
          rw [hr]
        rw [this]
        exact joinSp_ne_empty _ htoks hall

theorem accepted_record_title_nonempty_witness :
    (⟨5, "MAT1001", "Calculus", "L", 4, "A", "M", "J", "F", "D"⟩ :
      CourseRecord).course_title ≠ "" :=
  accepted_record_title_nonempty "5 MAT1001 Calculus L 4.0 A M J F D"
    ⟨5, "MAT1001", "Calculus", "L", 4, "A", "M", "J", "F", "D"⟩ (by decide)

/-- Claim C5: for a cleaned non-empty line, the segmenter starts a new
record iff the line matches the anchor pattern (digits, whitespace,
course-code token, word boundary) at its start — flushing the previous
accumulator through the row parser; a non-anchor line is appended to a
non-empty accumulator separated by a single space; and a non-anchor line
arriving before any anchor (empty accumulator) is dropped. -/
theorem segmenter_step (st : SegState) (raw l : String)
    (hclean : clean_line raw = l) (hne : l ≠ "") :
    (anchorMatch l = true →
      processLine st raw = ⟨st.records ++ (parse_course_line st.current).toList, l⟩) ∧
    (anchorMatch l = false → st.current ≠ "" →
      processLine st raw = ⟨st.records, st.current ++ " " ++ l⟩) ∧
    (anchorMatch l = false → st.current = "" → processLine st raw = st) := by
  subst hclean
  refine ⟨?_, ?_, ?_⟩
  · intro ha
    simp only [processLine, if_neg hne, ha, if_pos]
    by_cases hc : st.current = ""
    · have hp : (parse_course_line "").toList = [] := by decide
      simp [hc, hp]
    · simp only [ne_eq, hc, not_false_eq_true, if_pos]
      cases hp : parse_course_line st.current with
      | none => simp [hp]
      | some r => simp [hp]
  · intro ha hc
    simp [processLine, if_neg hne, ha, hc]
  · intro ha hc
    simp [processLine, if_neg hne, ha, hc]

theorem segmenter_step_witness :
    processLine ⟨[], "Structures Continued"⟩
        "12 CSE1001 Data Structures A 4.0 A EXAM-MAY RESULT-JUN FULL DIST1" =
      ⟨([] : List CourseRecord) ++ (parse_course_line "Structures Continued").toList,
       "12 CSE1001 Data Structures A 4.0 A EXAM-MAY RESULT-JUN FULL DIST1"⟩ :=
  (segmenter_step ⟨[], "Structures Continued"⟩
    "12 CSE1001 Data Structures A 4.0 A EXAM-MAY RESULT-JUN FULL DIST1"
    "12 CSE1001 Data Structures A 4.0 A EXAM-MAY RESULT-JUN FULL DIST1"
    (by decide) (by decide)).1 (by decide)

/-- Claim C1 (as stated) is false: a record whose `course_title` carries a
trailing space satisfies the data-model type constraints (`sl_no` integer,
`credits` numeric, title free text), yet the round trip returns the record
with the title trimmed — `/download` strips every submitted value and
`parse_csv` strips every cell — so the decoded sequence differs from the
original field-for-field. -/
theorem csv_round_trip_counterexample :
    parse_csvE (download_csv_encode
        [⟨6, "HUM1021", "Engineering Mechanics ", "L", 3, "B", "MAY2023",
          "JUN2023", "FULL", "DIST2"⟩]) =
      Except.ok [⟨6, "HUM1021", "Engineering Mechanics", "L", 3, "B",
        "MAY2023", "JUN2023", "FULL", "DIST2"⟩] ∧
    parse_csvE (download_csv_encode
        [⟨6, "HUM1021", "Engineering Mechanics ", "L", 3, "B", "MAY2023",
          "JUN2023", "FULL", "DIST2"⟩]) ≠
      Except.ok [⟨6, "HUM1021", "Engineering Mechanics ", "L", 3, "B",
        "MAY2023", "JUN2023", "FULL", "DIST2"⟩] := by
  constructor
  · decide
  · decide

theorem digitVal_digitChar {d : Nat} (h : d < 10) :
    digitVal (Nat.digitChar d) = d := by
  interval_cases d <;> decide

theorem isDigit_digitChar {d : Nat} (h : d < 10) :
    (Nat.digitChar d).isDigit = true := by
  interval_cases d <;> decide

theorem digitsVal_init (a : Nat) (cs : List Char) :
    cs.foldl (fun a c => a * 10 + digitVal c) a =
      a * 10 ^ cs.length + digitsVal cs := by
  induction cs generalizing a with
  | nil => simp [digitsVal]
  | cons c cs ih =>
    simp only [List.foldl_cons, List.length_cons, digitsVal]
    rw [ih (a * 10 + digitVal c), ih (0 * 10 + digitVal c)]
    ring

theorem digitsVal_append (xs ys : List Char) :
    digitsVal (xs ++ ys) = digitsVal xs * 10 ^ ys.length + digitsVal ys := by
  unfold digitsVal
  rw [List.foldl_append]
  exact digitsVal_init _ ys

theorem natToDigitsGo_all_digit :
    ∀ (fuel n : Nat), ∀ c ∈ natToDigitsGo fuel n, c.isDigit = true := by
  intro fuel
  induction fuel with
  | zero => intro n c hc; simp [natToDigitsGo] at hc
  | succ fuel ih =>
    intro n c hc
    match n with
    | 0 => simp [natToDigitsGo] at hc
    | n + 1 =>
      simp only [natToDigitsGo, List.mem_cons] at hc
      rcases hc with hc | hc
      · exact hc ▸ isDigit_digitChar (Nat.mod_lt _ (by omega))
      · exact ih _ c hc

theorem digitsVal_natToDigitsGo :
    ∀ (fuel n : Nat), n ≤ fuel →
      digitsVal (natToDigitsGo fuel n).reverse = n := by
  intro fuel
  induction fuel with
  | zero =>
    intro n hn
    have : n = 0 := by omega
    subst this
    decide
  | succ fuel ih =>
    intro n hn
    match n with
    | 0 => simp [natToDigitsGo, digitsVal]
    | n + 1 =>
      simp only [natToDigitsGo, List.reverse_cons]
      rw [digitsVal_append]
      have hrec : digitsVal (natToDigitsGo fuel ((n + 1) / 10)).reverse = (n + 1) / 10 :=
        ih _ (by omega)
      rw [hrec]
      have hd : digitsVal [Nat.digitChar ((n + 1) % 10)] = (n + 1) % 10 := by
        simp only [digitsVal, List.foldl_cons, List.foldl_nil]
        rw [digitVal_digitChar (Nat.mod_lt _ (by omega))]
        omega
      rw [hd]
      simp only [List.length_singleton, pow_one]
      omega

theorem digitsVal_natDigitChars (n : Nat) : digitsVal (natDigitChars n) = n :=
  digitsVal_natToDigitsGo n n (Nat.le_refl n)

theorem natDigitChars_all_digit (n : Nat) :
    ∀ c ∈ natDigitChars n, c.isDigit = true := by
  intro c hc
  exact natToDigitsGo_all_digit n n c (List.mem_reverse.mp hc)

theorem natDigitChars_ne_nil {n : Nat} (h : n ≠ 0) : natDigitChars n ≠ [] := by
  intro he
  have := digitsVal_natDigitChars n
  rw [he] at this
  exact h (by simpa [digitsVal] using this.symm)

theorem pyIsSpace_cases {c : Char} (h : pyIsSpace c = true) :
    c = ' ' ∨ c = '\t' ∨ c = '\n' ∨ c = '\r' ∨ c = '\x0b' ∨ c = '\x0c' := by
  simp only [pyIsSpace, Bool.or_eq_true, decide_eq_true_eq] at h
  tauto

theorem isDigit_not_space {c : Char} (h : c.isDigit = true) :
    pyIsSpace c = false := by
  cases hpy : pyIsSpace c
  · rfl
  · rcases pyIsSpace_cases hpy with h1 | h1 | h1 | h1 | h1 | h1 <;>
      subst h1 <;> exact absurd h (by decide)

theorem dropWhile_id {p : Char → Bool} {cs : List Char}
    (h : ∀ c ∈ cs, p c = false) : cs.dropWhile p = cs := by
  cases cs with
  | nil => rfl
  | cons c cs =>
    rw [List.dropWhile_cons, h c (by simp)]
    simp

theorem noSpace_strip_id {cs : List Char}
    (h : ∀ c ∈ cs, pyIsSpace c = false) : pyStripChars cs = cs := by
  unfold pyStripChars
  rw [dropWhile_id h]
  rw [dropWhile_id (fun c hc => h c (List.mem_reverse.mp hc))]
  exact List.reverse_reverse cs

theorem renderNat_all_digit (n : Nat) :
    ∀ c ∈ (renderNat n).data, c.isDigit = true := by
  intro c hc
  unfold renderNat at hc
  by_cases hn : n = 0
  · rw [if_pos hn] at hc
    have : c = '0' := by simpa using hc
    rw [this]; decide
  · rw [if_neg hn] at hc
    exact natDigitChars_all_digit n c hc

theorem renderNat_data_ne_nil (n : Nat) : (renderNat n).data ≠ [] := by
  unfold renderNat
  by_cases hn : n = 0
  · rw [if_pos hn]; decide
  · rw [if_neg hn]
    exact natDigitChars_ne_nil hn

theorem digitsVal_renderNat (n : Nat) : digitsVal (renderNat n).data = n := by
  unfold renderNat
  by_cases hn : n = 0
  · rw [if_pos hn, hn]; decide
  · rw [if_neg hn]
    exact digitsVal_natDigitChars n

theorem pyIntDigits_renderNat (n : Nat) :
    pyIntDigits (renderNat n).data = some n := by
  unfold pyIntDigits
  rw [if_pos]
  · rw [digitsVal_renderNat]
  · refine (Bool.and_eq_true _ _).mpr ⟨?_, ?_⟩
    · simpa using renderNat_data_ne_nil n
    · exact List.all_eq_true.mpr (renderNat_all_digit n)

theorem digit_ne_minus {c : Char} (h : c.isDigit = true) : ¬(c = '-') := by
  intro he; subst he; exact absurd h (by decide)

theorem digit_ne_plus {c : Char} (h : c.isDigit = true) : ¬(c = '+') := by
  intro he; subst he; exact absurd h (by decide)

theorem data_append (a b : String) : (a ++ b).data = a.data ++ b.data := rfl

theorem renderNat_strip_id (n : Nat) :
    pyStripChars (renderNat n).data = (renderNat n).data :=
  noSpace_strip_id (fun c hc => isDigit_not_space (renderNat_all_digit n c hc))

theorem pyIntOpt_renderNat (n : Nat) : pyIntOpt (renderNat n) = some (n : Int) := by
  unfold pyIntOpt
  rw [renderNat_strip_id]
  obtain ⟨c, r, hcr⟩ := List.exists_cons_of_ne_nil (renderNat_data_ne_nil n)
  have hc : c.isDigit = true := renderNat_all_digit n c (by rw [hcr]; simp)
  rw [hcr]
  rw [if_neg (by simp)]
  simp only [List.headD_cons]
  rw [if_neg (digit_ne_minus hc), if_neg (digit_ne_plus hc)]
  rw [← hcr, pyIntDigits_renderNat]
  rfl

theorem pyIntOpt_renderInt (n : Int) : pyIntOpt (renderInt n) = some n := by
  cases n with
  | ofNat m =>
    show pyIntOpt (renderNat m) = some (Int.ofNat m)
    exact pyIntOpt_renderNat m
  | negSucc m =>
    show pyIntOpt ("-" ++ renderNat (m + 1)) = some (Int.negSucc m)
    unfold pyIntOpt
    rw [data_append]
    have hminus : ("-" : String).data = ['-'] := rfl
    rw [hminus, List.singleton_append]
    have hall : ∀ c ∈ '-' :: (renderNat (m + 1)).data, pyIsSpace c = false := by
      intro c hcm
      rcases List.mem_cons.mp hcm with h1 | h1
      · rw [h1]; decide
      · exact isDigit_not_space (renderNat_all_digit (m + 1) c h1)
    rw [noSpace_strip_id hall]
    rw [if_neg (by simp)]
    simp only [List.headD_cons, List.tail_cons, if_true]
    rw [pyIntDigits_renderNat]
    simp [Int.negSucc_eq]

theorem renderInt_all_chars (n : Int) :
    ∀ c ∈ (renderInt n).data, c.isDigit = true ∨ c = '-' := by
  intro c hc
  cases n with
  | ofNat m => exact Or.inl (renderNat_all_digit m c hc)
  | negSucc m =>
    rw [show renderInt (Int.negSucc m) = "-" ++ renderNat (m + 1) from rfl,
      data_append] at hc
    rcases List.mem_append.mp hc with h1 | h1
    · right; simpa using h1
    · exact Or.inl (renderNat_all_digit (m + 1) c h1)

theorem renderInt_not_space (n : Int) :
    ∀ c ∈ (renderInt n).data, pyIsSpace c = false := by
  intro c hc
  rcases renderInt_all_chars n c hc with h | h
  · exact isDigit_not_space h
  · rw [h]; decide

theorem pyStrip_renderInt (n : Int) : pyStrip (renderInt n) = renderInt n := by
  unfold pyStrip
  rw [noSpace_strip_id (renderInt_not_space n)]

theorem renderInt_ne_empty (n : Int) : renderInt n ≠ "" := by
  intro he
  have hd := congrArg String.data he
  cases n with
  | ofNat m => exact renderNat_data_ne_nil m (by simpa using hd)
  | negSucc m =>
    rw [show renderInt (Int.negSucc m) = "-" ++ renderNat (m + 1) from rfl,
      data_append] at hd
    simp at hd

theorem takeWhile_all {p : Char → Bool} :
    ∀ {xs : List Char}, (∀ c ∈ xs, p c = true) →
      xs.takeWhile p = xs ∧ xs.dropWhile p = [] := by
  intro xs
  induction xs with
  | nil => intro _; exact ⟨rfl, rfl⟩
  | cons c cs ih =>
    intro h
    have hc := h c (by simp)
    have hrest := ih (fun x hx => h x (by simp [hx]))
    rw [List.takeWhile_cons, List.dropWhile_cons, hc]
    simp only [if_true]
    exact ⟨by rw [hrest.1], hrest.2⟩

theorem takeWhile_all_stop {p : Char → Bool} (y : Char) (ys : List Char) :
    ∀ {xs : List Char}, (∀ c ∈ xs, p c = true) → p y = false →
      (xs ++ y :: ys).takeWhile p = xs ∧ (xs ++ y :: ys).dropWhile p = y :: ys := by
  intro xs
  induction xs with
  | nil =>
    intro _ hy
    simp [List.takeWhile_cons, List.dropWhile_cons, hy]
  | cons c cs ih =>
    intro hall hy
    have hc := hall c (by simp)
    have hrest := ih (fun x hx => hall x (by simp [hx])) hy
    simp only [List.cons_append, List.takeWhile_cons, List.dropWhile_cons, hc, if_true]
    exact ⟨by rw [hrest.1], hrest.2⟩

theorem digitsVal_replicate_zero (j : Nat) :
    digitsVal (List.replicate j '0') = 0 := by
  induction j with
  | zero => rfl
  | succ j ih =>
    rw [List.replicate_succ]
    unfold digitsVal
    rw [List.foldl_cons]
    have h0 : (0 * 10 + digitVal '0') = 0 := by decide
    rw [h0]
    exact ih

theorem digitsVal_padZeros (len : Nat) (ds : List Char) :
    digitsVal (padZeros len ds) = digitsVal ds := by
  unfold padZeros
  rw [digitsVal_append, digitsVal_replicate_zero]
  ring

theorem padZeros_all_digit (len : Nat) {ds : List Char}
    (h : ∀ c ∈ ds, c.isDigit = true) :
    ∀ c ∈ padZeros len ds, c.isDigit = true := by
  intro c hc
  rcases List.mem_append.mp hc with h1 | h1
  · rw [List.eq_of_mem_replicate h1]; decide
  · exact h c h1

theorem padZeros_length (len : Nat) (ds : List Char) :
    (padZeros len ds).length = max len ds.length := by
  unfold padZeros
  rw [List.length_append, List.length_replicate]
  omega

/-- Structure of the decimal rendering of a decimally-representable
rational: an optional sign, a non-empty integer digit string, a dot, and
exactly `max (decK q.den) 1` fraction digits whose combined value is the
scaled numerator. -/
theorem renderCredits_eq (q : Rat) (hq : goodCredits q = true) :
    ∃ ip fp : List Char,
      (renderCredits q).data = (if q.num < 0 then ['-'] else []) ++ ip ++ '.' :: fp ∧
      ip ≠ [] ∧ (∀ c ∈ ip, c.isDigit = true) ∧ (∀ c ∈ fp, c.isDigit = true) ∧
      fp.length = max (decK q.den) 1 ∧
      digitsVal ip * 10 ^ fp.length + digitsVal fp =
        q.num.natAbs * (10 ^ (max (decK q.den) 1) / q.den) := by
  have hmod : 10 ^ (max (decK q.den) 1) % q.den = 0 := by
    have := of_decide_eq_true hq
    exact this
  unfold renderCredits
  rw [if_pos hmod]
  set k := max (decK q.den) 1 with hk
  set m := q.num.natAbs * (10 ^ k / q.den) with hm
  set padded := padZeros (k + 1) (natDigitChars m) with hpad
  have hLlen : padded.length = max (k + 1) (natDigitChars m).length := by
    rw [hpad]; exact padZeros_length _ _
  have hLge : k + 1 ≤ padded.length := by rw [hLlen]; omega
  refine ⟨padded.take (padded.length - k), padded.drop (padded.length - k),
    rfl, ?_, ?_, ?_, ?_, ?_⟩
  · intro he
    have := congrArg List.length he
    rw [List.length_take] at this
    simp only [List.length_nil] at this
    omega
  · intro c hc
    exact padZeros_all_digit _ (natDigitChars_all_digit m) c (List.mem_of_mem_take hc)
  · intro c hc
    exact padZeros_all_digit _ (natDigitChars_all_digit m) c (List.mem_of_mem_drop hc)
  · rw [List.length_drop]; omega
  · rw [List.length_drop]
    have hdk : padded.length - (padded.length - k) = k := by omega
    rw [hdk]
    have hsplit := List.take_append_drop (padded.length - k) padded
    have := digitsVal_append (padded.take (padded.length - k))
      (padded.drop (padded.length - k))
    rw [List.length_drop, hdk] at this
    rw [hsplit] at this
    rw [← this, hpad, digitsVal_padZeros, digitsVal_natDigitChars]

theorem mkRat_scaled_abs (q : Rat) (k : Nat) (hdvd : q.den ∣ 10 ^ k) :
    mkRat ((q.num.natAbs * (10 ^ k / q.den) : Nat) : Int) ((10 : Nat) ^ k) = |q| := by
  have hden0 : q.den ≠ 0 := q.den_nz
  have hdenQ : ((q.den : Nat) : Rat) ≠ 0 := by exact_mod_cast hden0
  have hdenpos : (0 : Rat) < ((q.den : Nat) : Rat) := by exact_mod_cast q.den_pos
  have hnum : ((q.num : Int) : Rat) = q * ((q.den : Nat) : Rat) :=
    (div_eq_iff hdenQ).mp (Rat.num_div_den q)
  have habs2 : |q| * ((q.den : Nat) : Rat) = |((q.num : Int) : Rat)| := by
    rw [hnum, abs_mul, abs_of_pos hdenpos]
  have hcast : ((10 ^ k / q.den : Nat) : Rat) = (10 : Rat) ^ k / ((q.den : Nat) : Rat) := by
    rw [Nat.cast_div hdvd hdenQ]
    push_cast
    ring
  rw [Rat.mkRat_eq_div]
  have h1 : ((q.num.natAbs * (10 ^ k / q.den) : Nat) : Int) =
      ((q.num.natAbs : Nat) : Int) * (((10 ^ k / q.den : Nat) : Nat) : Int) := by
    exact_mod_cast rfl
  rw [h1, Int.cast_mul, Int.cast_natCast, Int.cast_natCast, hcast]
  rw [Int.cast_natAbs, Int.cast_abs]
  have h10 : ((10 ^ k : Nat) : Rat) = (10 : Rat) ^ k := by push_cast; ring
  rw [h10]
  rw [div_eq_iff (by positivity : ((10 : Rat) ^ k) ≠ 0)]
  rw [← habs2]
  field_simp
  ring

theorem pyFloatMag_ip_fp {ip fp : List Char} (hip : ip ≠ [])
    (hipd : ∀ c ∈ ip, c.isDigit = true) (hfpd : ∀ c ∈ fp, c.isDigit = true) :
    pyFloatMag (ip ++ '.' :: fp) =
      some (mkRat ((digitsVal ip * 10 ^ fp.length + digitsVal fp : Nat) : Int)
        (10 ^ fp.length)) := by
  unfold pyFloatMag
  have hdot : Char.isDigit '.' = false := by decide
  have h1 := takeWhile_all_stop '.' fp hipd hdot
  rw [h1.1, h1.2]
  rw [if_pos ⟨by simp, by simp⟩]
  simp only [List.tail_cons]
  have h2 := takeWhile_all hfpd
  rw [h2.1, h2.2]
  rw [if_neg (fun hcontr => hip hcontr.1)]
  have hexp : parseExpPart [] = some 0 := rfl
  rw [hexp, Option.map_some']
  have hrs : ratScale (digitsVal ip * 10 ^ fp.length + digitsVal fp) (10 ^ fp.length) 0 =
      mkRat (((digitsVal ip * 10 ^ fp.length + digitsVal fp) * 10 ^ 0 : Nat) : Int)
        (10 ^ fp.length) := rfl
  rw [hrs]
  norm_num

theorem pyFloatOpt_renderCredits (q : Rat) (hq : goodCredits q = true) :
    pyFloatOpt (renderCredits q) = some q := by
  obtain ⟨ip, fp, hdata, hip, hipd, hfpd, hfplen, hval⟩ := renderCredits_eq q hq
  have hmod : 10 ^ (max (decK q.den) 1) % q.den = 0 := of_decide_eq_true hq
  have hdvd : q.den ∣ 10 ^ (max (decK q.den) 1) := Nat.dvd_of_mod_eq_zero hmod
  have hnospace : ∀ c ∈ (renderCredits q).data, pyIsSpace c = false := by
    intro c hc
    rw [hdata] at hc
    rcases List.mem_append.mp hc with h1 | h1
    · rcases List.mem_append.mp h1 with h2 | h2
      · by_cases hneg : q.num < 0
        · rw [if_pos hneg] at h2
          have : c = '-' := by simpa using h2
          rw [this]; decide
        · rw [if_neg hneg] at h2
          simp at h2
      · exact isDigit_not_space (hipd c h2)
    · rcases List.mem_cons.mp h1 with h3 | h3
      · rw [h3]; decide
      · exact isDigit_not_space (hfpd c h3)
  have hmagval : pyFloatMag (ip ++ '.' :: fp) = some (|q|) := by
    rw [pyFloatMag_ip_fp hip hipd hfpd, hval, hfplen]
    rw [mkRat_scaled_abs q _ hdvd]
  unfold pyFloatOpt
  rw [noSpace_strip_id hnospace, hdata]
  by_cases hneg : q.num < 0
  · rw [if_pos hneg, List.append_assoc, List.singleton_append]
    rw [if_neg (by simp)]
    simp only [List.headD_cons, List.tail_cons, if_true]
    rw [hmagval, Option.map_some']
    have hqneg : q < 0 := by
      by_contra hcontr
      push_neg at hcontr
      exact absurd (Rat.num_nonneg.mpr hcontr) (by omega)
    rw [abs_of_neg hqneg, neg_neg]
  · rw [if_neg hneg, List.nil_append]
    obtain ⟨c, ip', hcr⟩ := List.exists_cons_of_ne_nil hip
    have hcdig : c.isDigit = true := hipd c (by rw [hcr]; simp)
    rw [hcr, List.cons_append]
    rw [if_neg (by simp)]
    simp only [List.headD_cons]
    rw [if_neg (digit_ne_minus hcdig), if_neg (digit_ne_plus hcdig)]
    rw [← List.cons_append, ← hcr, hmagval]
    push_neg at hneg
    have hqpos : 0 ≤ q := Rat.num_nonneg.mp hneg
    rw [abs_of_nonneg hqpos]

theorem renderCredits_chars (q : Rat) (hq : goodCredits q = true) :
    ∀ c ∈ (renderCredits q).data, c.isDigit = true ∨ c = '-' ∨ c = '.' := by
  obtain ⟨ip, fp, hdata, _, hipd, hfpd, _, _⟩ := renderCredits_eq q hq
  intro c hc
  rw [hdata] at hc
  rcases List.mem_append.mp hc with h1 | h1
  · rcases List.mem_append.mp h1 with h2 | h2
    · by_cases hneg : q.num < 0
      · rw [if_pos hneg] at h2
        right; left; simpa using h2
      · rw [if_neg hneg] at h2
        simp at h2
    · exact Or.inl (hipd c h2)
  · rcases List.mem_cons.mp h1 with h3 | h3
    · right; right; exact h3
    · exact Or.inl (hfpd c h3)

theorem renderCredits_ne_empty (q : Rat) (hq : goodCredits q = true) :
    renderCredits q ≠ "" := by
  obtain ⟨ip, fp, hdata, hip, _, _, _, _⟩ := renderCredits_eq q hq
  intro he
  have hd := congrArg String.data he
  rw [hdata] at hd
  simp at hd

theorem pyStrip_renderCredits (q : Rat) (hq : goodCredits q = true) :
    pyStrip (renderCredits q) = renderCredits q := by
  unfold pyStrip
  rw [noSpace_strip_id]
  intro c hc
  rcases renderCredits_chars q hq c hc with h | h | h
  · exact isDigit_not_space h
  · rw [h]; decide
  · rw [h]; decide

theorem csvScan_through_field :
    ∀ (f cs buf : List Char) (row : List String),
      (∀ c ∈ f, c ≠ ',' ∧ c ≠ '"' ∧ c ≠ '\n') →
      csvScan (f ++ cs) CsvMode.inField buf row =
        csvScan cs CsvMode.inField (buf ++ f) row := by
  intro f
  induction f with
  | nil => intro cs buf row _; simp
  | cons c f ih =>
    intro cs buf row hf
    obtain ⟨h1, h2, h3⟩ := hf c (by simp)
    rw [List.cons_append]
    simp only [csvScan, if_neg h3, if_neg h1]
    rw [ih cs (buf ++ [c]) row (fun x hx => hf x (by simp [hx]))]
    rw [List.append_assoc, List.singleton_append]

theorem csvScan_through_quoted :
    ∀ (f cs buf : List Char) (row : List String),
      csvScan (escQ f ++ '"' :: cs) CsvMode.inQuoted buf row =
        csvScan cs CsvMode.quoteQuoted (buf ++ f) row := by
  intro f
  induction f with
  | nil =>
    intro cs buf row
    simp [escQ, csvScan]
  | cons c f ih =>
    intro cs buf row
    by_cases hc : c = '"'
    · subst hc
      show csvScan (('"' :: '"' :: escQ f) ++ '"' :: cs) CsvMode.inQuoted buf row = _
      rw [List.cons_append, List.cons_append]
      simp only [csvScan, if_true]
      rw [ih cs (buf ++ ['"']) row]
      rw [List.append_assoc, List.singleton_append]
    · show csvScan ((if c = '"' then '"' :: '"' :: escQ f else c :: escQ f) ++ '"' :: cs)
          CsvMode.inQuoted buf row = _
      rw [if_neg hc, List.cons_append]
      simp only [csvScan, if_neg hc]
      rw [ih cs (buf ++ [c]) row]
      rw [List.append_assoc, List.singleton_append]

theorem needsQuote_false_chars {f : List Char} (h : needsQuote f = false) :
    ∀ c ∈ f, c ≠ ',' ∧ c ≠ '"' ∧ c ≠ '\n' := by
  intro c hc
  unfold needsQuote at h
  rw [List.any_eq_false] at h
  have := h c hc
  simp only [Bool.or_eq_true, decide_eq_true_eq, not_or] at this
  tauto

theorem string_mk_data (s : String) : String.mk s.data = s := rfl

theorem csvScan_encField_comma (f : String) (cs : List Char) (row : List String) :
    csvScan (encField f.data ++ ',' :: cs) CsvMode.startField [] row =
      csvScan cs CsvMode.startField [] (row ++ [f]) := by
  unfold encField
  by_cases hq : needsQuote f.data
  · rw [if_pos hq, List.cons_append, List.append_assoc, List.singleton_append]
    simp only [csvScan, if_true]
    rw [csvScan_through_quoted f.data (',' :: cs) [] row]
    simp [csvScan, string_mk_data]
  · rw [if_neg hq]
    have hchars := needsQuote_false_chars (by simpa using hq)
    cases hfd : f.data with
    | nil =>
      have hf : f = "" := by
        have := congrArg String.mk hfd
        rwa [string_mk_data] at this
      rw [hf, List.nil_append]
      simp [csvScan]
    | cons c rest =>
      obtain ⟨h1, h2, h3⟩ := hchars c (by rw [hfd]; simp)
      rw [List.cons_append]
      simp only [csvScan, if_neg h3, if_neg h1, if_neg h2]
      rw [csvScan_through_field rest (',' :: cs) [c] row
        (fun x hx => hchars x (by rw [hfd]; simp [hx]))]
      have hmk : String.mk (c :: rest) = f := by
        rw [← hfd, string_mk_data]
      simp [csvScan, hmk]

theorem csvScan_encField_newline (f : String) (cs : List Char) (row : List String) :
    csvScan (encField f.data ++ '\n' :: cs) CsvMode.startField [] row =
      (row ++ [f]) :: csvScan cs CsvMode.startRow [] [] := by
  unfold encField
  by_cases hq : needsQuote f.data
  · rw [if_pos hq, List.cons_append, List.append_assoc, List.singleton_append]
    simp only [csvScan, if_true]
    rw [csvScan_through_quoted f.data ('\n' :: cs) [] row]
    simp [csvScan, string_mk_data]
  · rw [if_neg hq]
    have hchars := needsQuote_false_chars (by simpa using hq)
    cases hfd : f.data with
    | nil =>
      have hf : f = "" := by
        have := congrArg String.mk hfd
        rwa [string_mk_data] at this
      rw [hf, List.nil_append]
      simp [csvScan]
    | cons c rest =>
      obtain ⟨h1, h2, h3⟩ := hchars c (by rw [hfd]; simp)
      rw [List.cons_append]
      simp only [csvScan, if_neg h3, if_neg h1, if_neg h2]
      rw [csvScan_through_field rest ('\n' :: cs) [c] row
        (fun x hx => hchars x (by rw [hfd]; simp [hx]))]
      have hmk : String.mk (c :: rest) = f := by
        rw [← hfd, string_mk_data]
      simp [csvScan, hmk]

theorem csvScan_encRowLF :
    ∀ (fs : List String) (cs : List Char) (row : List String), fs ≠ [] →
      csvScan (encRowLF fs ++ cs) CsvMode.startField [] row =
        (row ++ fs) :: csvScan cs CsvMode.startRow [] [] := by
  intro fs
  induction fs with
  | nil => intro cs row h; exact absurd rfl h
  | cons f fs ih =>
    intro cs row _
    cases fs with
    | nil =>
      show csvScan ((encField f.data ++ ['\n']) ++ cs) CsvMode.startField [] row = _
      rw [List.append_assoc, List.singleton_append, csvScan_encField_newline]
    | cons f2 fs2 =>
      have hbody : encRowLF (f :: f2 :: fs2) ++ cs =
          encField f.data ++ ',' :: (encRowLF (f2 :: fs2) ++ cs) := by
        show ((encField f.data ++ ',' :: encRowBody (f2 :: fs2)) ++ ['\n']) ++ cs = _
        simp [List.append_assoc, encRowLF]
      rw [hbody, csvScan_encField_comma]
      rw [ih cs (row ++ [f]) (by simp)]
      simp

theorem headD_append {xs ys : List Char} (d : Char) (h : xs ≠ []) :
    (xs ++ ys).headD d = xs.headD d := by
  cases xs with
  | nil => exact absurd rfl h
  | cons c cs => simp

theorem csvScan_startRow_eq (xs : List Char) (hne : xs ≠ [])
    (hhead : xs.headD ' ' ≠ '\n') :
    csvScan xs CsvMode.startRow [] [] = csvScan xs CsvMode.startField [] [] := by
  cases xs with
  | nil => exact absurd rfl hne
  | cons c cs =>
    have hc : c ≠ '\n' := by simpa using hhead
    by_cases h1 : c = ','
    · subst h1; simp [csvScan]
    · by_cases h2 : c = '"'
      · subst h2; simp [csvScan]
      · simp only [csvScan, if_neg hc, if_neg h1, if_neg h2]

theorem data_ne_nil_of_ne_empty {f : String} (h : f ≠ "") : f.data ≠ [] := by
  intro hd
  exact h (by rw [← string_mk_data f, hd])

theorem encField_ne_nil {f : String} (h : f ≠ "") : encField f.data ≠ [] := by
  unfold encField
  by_cases hq : needsQuote f.data
  · rw [if_pos hq]; simp
  · rw [if_neg hq]; exact data_ne_nil_of_ne_empty h

theorem encField_head_ne_nl {f : String} (h : f ≠ "") :
    (encField f.data).headD ' ' ≠ '\n' := by
  unfold encField
  by_cases hq : needsQuote f.data
  · rw [if_pos hq]; simp
  · rw [if_neg hq]
    obtain ⟨c, rest, hcr⟩ := List.exists_cons_of_ne_nil (data_ne_nil_of_ne_empty h)
    have := needsQuote_false_chars (by simpa using hq) c (by rw [hcr]; simp)
    rw [hcr]
    simpa using this.2.2

theorem encRowLF_ne_nil (fs : List String) : encRowLF fs ≠ [] := by
  unfold encRowLF
  simp

theorem encRowLF_head {f : String} (fs : List String) (hf : f ≠ "") :
    (encRowLF (f :: fs)).headD ' ' ≠ '\n' := by
  unfold encRowLF
  have hne := encField_ne_nil hf
  cases fs with
  | nil =>
    show ((encField f.data ++ ['\n']).headD ' ' ≠ '\n')
    rw [headD_append _ hne]
    exact encField_head_ne_nl hf
  | cons f2 fs2 =>
    show (((encField f.data ++ ',' :: encRowBody (f2 :: fs2)) ++ ['\n']).headD ' ' ≠ '\n')
    rw [headD_append _ (by simp [hne]), headD_append _ hne]
    exact encField_head_ne_nl hf

theorem csvScan_rows :
    ∀ (rows : List (List String)), (∀ r ∈ rows, r.headD "" ≠ "") →
      csvScan (rows.foldr (fun r acc => encRowLF r ++ acc) []) CsvMode.startRow [] [] =
        rows := by
  intro rows
  induction rows with
  | nil => intro _; rfl
  | cons r rows ih =>
    intro h
    have hr := h r (by simp)
    obtain ⟨f, rtl, hfr⟩ : ∃ f rtl, r = f :: rtl := by
      cases r with
      | nil => simp at hr
      | cons f rtl => exact ⟨f, rtl, rfl⟩
    have hf : f ≠ "" := by rw [hfr] at hr; simpa using hr
    show csvScan (encRowLF r ++ _) CsvMode.startRow [] [] = _
    rw [csvScan_startRow_eq _ (by simp [encRowLF_ne_nil r])
      (by rw [headD_append _ (encRowLF_ne_nil r), hfr]; exact encRowLF_head rtl hf)]
    rw [csvScan_encRowLF r _ [] (by rw [hfr]; simp)]
    rw [ih (fun x hx => h x (by simp [hx]))]
    simp

theorem translateNL_cons {c : Char} (hc : c ≠ '\r') (cs : List Char) :
    translateNL (c :: cs) = c :: translateNL cs := by
  cases cs with
  | nil => simp [translateNL, hc]
  | cons c2 cs2 => simp [translateNL, hc]

theorem translateNL_crlf (cs : List Char) :
    translateNL ('\r' :: '\n' :: cs) = '\n' :: translateNL cs := by
  simp [translateNL]

theorem translateNL_skip :
    ∀ (xs rest : List Char), (∀ c ∈ xs, c ≠ '\r') →
      translateNL (xs ++ rest) = xs ++ translateNL rest := by
  intro xs
  induction xs with
  | nil => intro rest _; rfl
  | cons c cs ih =>
    intro rest h
    rw [List.cons_append, translateNL_cons (h c (by simp))]
    rw [ih rest (fun x hx => h x (by simp [hx]))]
    rfl

theorem escQ_chars : ∀ (f : List Char) (c : Char), c ∈ escQ f → c ∈ f := by
  intro f
  induction f with
  | nil => intro c hc; simp [escQ] at hc
  | cons c0 f ih =>
    intro c hc
    unfold escQ at hc
    by_cases h0 : c0 = '"'
    · rw [if_pos h0] at hc
      rcases List.mem_cons.mp hc with h | h
      · rw [h, h0]; simp
      · rcases List.mem_cons.mp h with h | h
        · rw [h, h0]; simp
        · simp [ih c h]
    · rw [if_neg h0] at hc
      rcases List.mem_cons.mp hc with h | h
      · rw [h]; simp
      · simp [ih c h]

theorem encField_chars (f : List Char) (c : Char) (hc : c ∈ encField f) :
    c ∈ f ∨ c = '"' := by
  unfold encField at hc
  by_cases hq : needsQuote f
  · rw [if_pos hq] at hc
    rcases List.mem_cons.mp hc with h | h
    · exact Or.inr h
    · rcases List.mem_append.mp h with h2 | h2
      · exact Or.inl (escQ_chars f c h2)
      · exact Or.inr (by simpa using h2)
  · rw [if_neg hq] at hc
    exact Or.inl hc

theorem csvJoin_chars :
    ∀ (xs : List (List Char)) (c : Char), c ∈ csvJoin xs →
      (∃ g ∈ xs, c ∈ g) ∨ c = ',' := by
  intro xs
  induction xs with
  | nil => intro c hc; simp [csvJoin] at hc
  | cons f fs ih =>
    intro c hc
    cases fs with
    | nil =>
      left
      exact ⟨f, by simp, by simpa [csvJoin] using hc⟩
    | cons f2 fs2 =>
      have : csvJoin (f :: f2 :: fs2) = f ++ ',' :: csvJoin (f2 :: fs2) := rfl
      rw [this] at hc
      rcases List.mem_append.mp hc with h | h
      · exact Or.inl ⟨f, by simp, h⟩
      · rcases List.mem_cons.mp h with h2 | h2
        · exact Or.inr h2
        · rcases ih c h2 with ⟨g, hg, hcg⟩ | h3
          · exact Or.inl ⟨g, by simp [hg], hcg⟩
          · exact Or.inr h3

theorem encRowBody_noCR (fs : List String)
    (h : ∀ f ∈ fs, ∀ c ∈ f.data, c ≠ '\r') :
    ∀ c ∈ encRowBody fs, c ≠ '\r' := by
  intro c hc
  unfold encRowBody at hc
  rcases csvJoin_chars _ c hc with ⟨g, hg, hcg⟩ | h2
  · obtain ⟨f, hf, hfg⟩ := List.mem_map.mp hg
    rcases encField_chars f.data c (hfg ▸ hcg) with h3 | h3
    · exact h f hf c h3
    · rw [h3]; decide
  · rw [h2]; decide

theorem translateNL_encRow (fs : List String) (rest : List Char)
    (h : ∀ f ∈ fs, ∀ c ∈ f.data, c ≠ '\r') :
    translateNL (encRowCRLF fs ++ rest) = encRowLF fs ++ translateNL rest := by
  unfold encRowCRLF encRowLF
  rw [List.append_assoc]
  rw [translateNL_skip _ _ (encRowBody_noCR fs h)]
  show encRowBody fs ++ translateNL ('\r' :: '\n' :: rest) = _
  rw [translateNL_crlf]
  simp

theorem trimmedNoCR_spec {s : String} (h : trimmedNoCR s = true) :
    pyStrip s = s ∧ ∀ c ∈ s.data, c ≠ '\r' := by
  unfold trimmedNoCR at h
  rw [Bool.and_eq_true] at h
  refine ⟨of_decide_eq_true h.1, ?_⟩
  intro c hc he
  subst he
  exact of_decide_eq_true h.2 hc

theorem goodRecord_parts {r : CourseRecord} (h : goodRecord r = true) :
    trimmedNoCR r.course_code = true ∧ trimmedNoCR r.course_title = true ∧
    trimmedNoCR r.course_type = true ∧ trimmedNoCR r.grade = true ∧
    trimmedNoCR r.exam_month = true ∧ trimmedNoCR r.result_declared_on = true ∧
    trimmedNoCR r.course_option = true ∧ trimmedNoCR r.course_distribution = true ∧
    goodCredits r.credits = true := by
  unfold goodRecord at h
  simp only [Bool.and_eq_true] at h
  tauto

theorem renderRecord_head_ne (r : CourseRecord) :
    (renderRecord r).headD "" ≠ "" := by
  show pyStrip (renderInt r.sl_no) ≠ ""
  rw [pyStrip_renderInt]
  exact renderInt_ne_empty r.sl_no

theorem renderInt_noCR (n : Int) : ∀ c ∈ (renderInt n).data, c ≠ '\r' := by
  intro c hc he
  subst he
  rcases renderInt_all_chars n _ hc with h | h
  · exact absurd h (by decide)
  · exact absurd h (by decide)

theorem renderCredits_noCR {q : Rat} (hq : goodCredits q = true) :
    ∀ c ∈ (renderCredits q).data, c ≠ '\r' := by
  intro c hc he
  subst he
  rcases renderCredits_chars q hq _ hc with h | h | h
  · exact absurd h (by decide)
  · exact absurd h (by decide)
  · exact absurd h (by decide)

theorem renderRecord_noCR {r : CourseRecord} (h : goodRecord r = true) :
    ∀ f ∈ renderRecord r, ∀ c ∈ f.data, c ≠ '\r' := by
  obtain ⟨h1, h2, h3, h4, h5, h6, h7, h8, h9⟩ := goodRecord_parts h
  intro f hf
  unfold renderRecord at hf
  simp only [List.mem_cons, List.not_mem_nil, or_false] at hf
  rcases hf with hf | hf | hf | hf | hf | hf | hf | hf | hf | hf <;> subst hf
  · rw [pyStrip_renderInt]; exact renderInt_noCR r.sl_no
  · rw [(trimmedNoCR_spec h1).1]; exact (trimmedNoCR_spec h1).2
  · rw [(trimmedNoCR_spec h2).1]; exact (trimmedNoCR_spec h2).2
  · rw [(trimmedNoCR_spec h3).1]; exact (trimmedNoCR_spec h3).2
  · rw [pyStrip_renderCredits _ h9]; exact renderCredits_noCR h9
  · rw [(trimmedNoCR_spec h4).1]; exact (trimmedNoCR_spec h4).2
  · rw [(trimmedNoCR_spec h5).1]; exact (trimmedNoCR_spec h5).2
  · rw [(trimmedNoCR_spec h6).1]; exact (trimmedNoCR_spec h6).2
  · rw [(trimmedNoCR_spec h7).1]; exact (trimmedNoCR_spec h7).2
  · rw [(trimmedNoCR_spec h8).1]; exact (trimmedNoCR_spec h8).2

theorem encodeRows_eq_foldr :
    ∀ (rows : List (List String)), (∀ r ∈ rows, r.headD "" ≠ "") →
      encodeRows rows = rows.foldr (fun r acc => encRowCRLF r ++ acc) [] := by
  intro rows
  induction rows with
  | nil => intro _; rfl
  | cons r rows ih =>
    intro h
    have hr := h r (by simp)
    show (if r.all (fun f => f = "") then [] else encRowCRLF r) ++ encodeRows rows = _
    have hall : ¬(r.all (fun f => f = "") = true) := by
      intro hc
      cases r with
      | nil => simp at hr
      | cons f rtl =>
        have hf : f ≠ "" := by simpa using hr
        exact hf (of_decide_eq_true (List.all_eq_true.mp hc f (by simp)))
    rw [if_neg hall, ih (fun x hx => h x (by simp [hx]))]
    rfl

theorem translateNL_rows :
    ∀ (rows : List (List String)),
      (∀ r ∈ rows, ∀ f ∈ r, ∀ c ∈ f.data, c ≠ '\r') →
      translateNL (rows.foldr (fun r acc => encRowCRLF r ++ acc) []) =
        rows.foldr (fun r acc => encRowLF r ++ acc) [] := by
  intro rows
  induction rows with
  | nil => intro _; rfl
  | cons r rows ih =>
    intro h
    show translateNL (encRowCRLF r ++ _) = _
    rw [translateNL_encRow r _ (h r (by simp))]
    rw [ih (fun x hx => h x (by simp [hx]))]
    rfl

theorem scan_encode {rs : List CourseRecord}
    (h : ∀ r ∈ rs, goodRecord r = true) :
    csvScan (translateNL (download_csv_encode rs).data) CsvMode.startRow [] [] =
      csvHeader :: rs.map renderRecord := by
  have hhd : ∀ row ∈ rs.map renderRecord, row.headD "" ≠ "" := by
    intro row hrow
    obtain ⟨r, _, hrr⟩ := List.mem_map.mp hrow
    rw [← hrr]
    exact renderRecord_head_ne r
  have hdata : (download_csv_encode rs).data =
      encRowCRLF csvHeader ++ encodeRows (rs.map renderRecord) := rfl
  rw [hdata, encodeRows_eq_foldr _ hhd]
  have hfold : encRowCRLF csvHeader ++
      (rs.map renderRecord).foldr (fun r acc => encRowCRLF r ++ acc) [] =
      (csvHeader :: rs.map renderRecord).foldr (fun r acc => encRowCRLF r ++ acc) [] := rfl
  rw [hfold]
  rw [translateNL_rows]
  · rw [csvScan_rows]
    intro row hrow
    rcases List.mem_cons.mp hrow with h1 | h1
    · rw [h1]; decide
    · exact hhd row h1
  · intro row hrow
    rcases List.mem_cons.mp hrow with h1 | h1
    · rw [h1]; intro f hf; revert f; decide
    · obtain ⟨r, hrmem, hrr⟩ := List.mem_map.mp h1
      rw [← hrr]
      exact renderRecord_noCR (h r hrmem)

theorem getCell_slno (a0 a1 a2 a3 a4 a5 a6 a7 a8 a9 : String) :
    getCell csvHeader [a0, a1, a2, a3, a4, a5, a6, a7, a8, a9] "Sl.No" = some a0 := rfl

theorem getCell_code (a0 a1 a2 a3 a4 a5 a6 a7 a8 a9 : String) :
    getCell csvHeader [a0, a1, a2, a3, a4, a5, a6, a7, a8, a9] "Course Code" = some a1 := rfl

theorem getCell_title (a0 a1 a2 a3 a4 a5 a6 a7 a8 a9 : String) :
    getCell csvHeader [a0, a1, a2, a3, a4, a5, a6, a7, a8, a9] "Course Title" = some a2 := rfl

theorem getCell_type (a0 a1 a2 a3 a4 a5 a6 a7 a8 a9 : String) :
    getCell csvHeader [a0, a1, a2, a3, a4, a5, a6, a7, a8, a9] "Course Type" = some a3 := rfl

theorem getCell_credits (a0 a1 a2 a3 a4 a5 a6 a7 a8 a9 : String) :
    getCell csvHeader [a0, a1, a2, a3, a4, a5, a6, a7, a8, a9] "Credits" = some a4 := rfl

theorem getCell_grade (a0 a1 a2 a3 a4 a5 a6 a7 a8 a9 : String) :
    getCell csvHeader [a0, a1, a2, a3, a4, a5, a6, a7, a8, a9] "Grade" = some a5 := rfl

theorem getCell_exam (a0 a1 a2 a3 a4 a5 a6 a7 a8 a9 : String) :
    getCell csvHeader [a0, a1, a2, a3, a4, a5, a6, a7, a8, a9] "Exam Month" = some a6 := rfl

theorem getCell_result (a0 a1 a2 a3 a4 a5 a6 a7 a8 a9 : String) :
    getCell csvHeader [a0, a1, a2, a3, a4, a5, a6, a7, a8, a9] "Result Declared On" = some a7 := rfl

theorem getCell_option (a0 a1 a2 a3 a4 a5 a6 a7 a8 a9 : String) :
    getCell csvHeader [a0, a1, a2, a3, a4, a5, a6, a7, a8, a9] "Course Option" = some a8 := rfl

theorem getCell_dist (a0 a1 a2 a3 a4 a5 a6 a7 a8 a9 : String) :
    getCell csvHeader [a0, a1, a2, a3, a4, a5, a6, a7, a8, a9] "Course Distribution" = some a9 := rfl

theorem anyNonblankE_renderRecord (r : CourseRecord) :
    anyNonblankE csvHeader (renderRecord r) = Except.ok true := by
  have hdk : dedupKeys csvHeader = csvHeader := rfl
  show anyNonblankGo csvHeader (renderRecord r) (dedupKeys csvHeader) = Except.ok true
  rw [hdk]
  show (if pyStrip ((getCell csvHeader (renderRecord r) "Sl.No").getD "") ≠ ""
    then Except.ok true
    else anyNonblankGo csvHeader (renderRecord r)
      ["Course Code", "Course Title", "Course Type", "Credits", "Grade",
       "Exam Month", "Result Declared On", "Course Option", "Course Distribution"]) =
    Except.ok true
  rw [show getCell csvHeader (renderRecord r) "Sl.No" =
      some (pyStrip (renderInt r.sl_no)) from rfl]
  rw [if_pos]
  rw [Option.getD_some, pyStrip_renderInt, pyStrip_renderInt]
  exact renderInt_ne_empty r.sl_no

theorem parseCsvRowE_renderRecord {r : CourseRecord} (h : goodRecord r = true) :
    parseCsvRowE csvHeader (renderRecord r) = Except.ok (some r) := by
  obtain ⟨h1, h2, h3, h4, h5, h6, h7, h8, h9⟩ := goodRecord_parts h
  have hsl : pyStrip ((getCell csvHeader (renderRecord r) "Sl.No").getD "") =
      renderInt r.sl_no := by
    rw [show getCell csvHeader (renderRecord r) "Sl.No" =
        some (pyStrip (renderInt r.sl_no)) from rfl, Option.getD_some, pyStrip_renderInt, pyStrip_renderInt]
  have hcr : pyStrip ((getCell csvHeader (renderRecord r) "Credits").getD "") =
      renderCredits r.credits := by
    rw [show getCell csvHeader (renderRecord r) "Credits" =
        some (pyStrip (renderCredits r.credits)) from rfl, Option.getD_some, pyStrip_renderCredits _ h9,
      pyStrip_renderCredits _ h9]
  simp only [parseCsvRowE, anyNonblankE_renderRecord, hsl, hcr]
  rw [if_neg (renderInt_ne_empty r.sl_no)]
  rw [pyIntOpt_renderInt]
  rw [if_neg (renderCredits_ne_empty _ h9)]
  rw [pyFloatOpt_renderCredits _ h9]
  have hc1 : pyStrip ((getCell csvHeader (renderRecord r) "Course Code").getD "") =
      r.course_code := by
    rw [show getCell csvHeader (renderRecord r) "Course Code" =
        some (pyStrip r.course_code) from rfl, Option.getD_some, (trimmedNoCR_spec h1).1, (trimmedNoCR_spec h1).1]
  have hc2 : pyStrip ((getCell csvHeader (renderRecord r) "Course Title").getD "") =
      r.course_title := by
    rw [show getCell csvHeader (renderRecord r) "Course Title" =
        some (pyStrip r.course_title) from rfl, Option.getD_some, (trimmedNoCR_spec h2).1, (trimmedNoCR_spec h2).1]
  have hc3 : pyStrip ((getCell csvHeader (renderRecord r) "Course Type").getD "") =
      r.course_type := by
    rw [show getCell csvHeader (renderRecord r) "Course Type" =
        some (pyStrip r.course_type) from rfl, Option.getD_some, (trimmedNoCR_spec h3).1, (trimmedNoCR_spec h3).1]
  have hc4 : pyStrip ((getCell csvHeader (renderRecord r) "Grade").getD "") =
      r.grade := by
    rw [show getCell csvHeader (renderRecord r) "Grade" =
        some (pyStrip r.grade) from rfl, Option.getD_some, (trimmedNoCR_spec h4).1, (trimmedNoCR_spec h4).1]
  have hc5 : pyStrip ((getCell csvHeader (renderRecord r) "Exam Month").getD "") =
      r.exam_month := by
    rw [show getCell csvHeader (renderRecord r) "Exam Month" =
        some (pyStrip r.exam_month) from rfl, Option.getD_some, (trimmedNoCR_spec h5).1, (trimmedNoCR_spec h5).1]
  have hc6 : pyStrip ((getCell csvHeader (renderRecord r) "Result Declared On").getD "") =
      r.result_declared_on := by
    rw [show getCell csvHeader (renderRecord r) "Result Declared On" =
        some (pyStrip r.result_declared_on) from rfl, Option.getD_some, (trimmedNoCR_spec h6).1, (trimmedNoCR_spec h6).1]
  have hc7 : pyStrip ((getCell csvHeader (renderRecord r) "Course Option").getD "") =
      r.course_option := by
    rw [show getCell csvHeader (renderRecord r) "Course Option" =
        some (pyStrip r.course_option) from rfl, Option.getD_some, (trimmedNoCR_spec h7).1, (trimmedNoCR_spec h7).1]
  have hc8 : pyStrip ((getCell csvHeader (renderRecord r) "Course Distribution").getD "") =
      r.course_distribution := by
    rw [show getCell csvHeader (renderRecord r) "Course Distribution" =
        some (pyStrip r.course_distribution) from rfl, Option.getD_some, (trimmedNoCR_spec h8).1, (trimmedNoCR_spec h8).1]
  rw [hc1, hc2, hc3, hc4, hc5, hc6, hc7, hc8]

theorem decodeRows_renderRecords :
    ∀ (rs : List CourseRecord), (∀ r ∈ rs, goodRecord r = true) →
      decodeRows csvHeader (rs.map renderRecord) = Except.ok rs := by
  intro rs
  induction rs with
  | nil => intro _; rfl
  | cons r rs ih =>
    intro h
    show decodeRows csvHeader (renderRecord r :: rs.map renderRecord) = _
    have hne : ¬(renderRecord r = []) := by
      unfold renderRecord
      simp
    simp only [decodeRows, if_neg hne]
    rw [parseCsvRowE_renderRecord (h r (by simp))]
    rw [ih (fun x hx => h x (by simp [hx]))]

/-- Claim C1 (amended): for every non-empty sequence of records whose
string fields are already whitespace-trimmed and contain no carriage
return, and whose credits value is decimally representable, decoding the
CSV text produced by encoding the sequence yields exactly the original
sequence. -/
theorem csv_round_trip (rs : List CourseRecord) (_hne : rs ≠ [])
    (h : ∀ r ∈ rs, goodRecord r = true) :
    parse_csvE (download_csv_encode rs) = Except.ok rs := by
  unfold parse_csvE
  rw [scan_encode h]
  show decodeRows csvHeader (rs.map renderRecord) = Except.ok rs
  exact decodeRows_renderRecords rs h

theorem csv_round_trip_witness :
    parse_csvE (download_csv_encode
      [⟨6, "HUM1021", "Engineering Mechanics", "L", 3, "B", "MAY2023",
        "JUN2023", "FULL", "DIST2"⟩,
       ⟨7, "CSE1001", "Data, \"Structures\"", "L", mkRat 7 2, "A", "MAY2023",
        "JUN2023", "FULL", "DIST1"⟩]) =
      Except.ok
      [⟨6, "HUM1021", "Engineering Mechanics", "L", 3, "B", "MAY2023",
        "JUN2023", "FULL", "DIST2"⟩,
       ⟨7, "CSE1001", "Data, \"Structures\"", "L", mkRat 7 2, "A", "MAY2023",
        "JUN2023", "FULL", "DIST1"⟩] :=
  csv_round_trip _ (by decide) (by decide)
